import Mathlib

/-!
Verification development for the `fag` repository: a shallow embedding of
the flow-execution engine (`managers/base_manager.py`) and the knowledge-base
pipeline (`knowledge_base/*.py`), with theorems settling the frozen claims.

Strings are modelled as `List Char`; Python/JSON values as the inductive
type `Val` below (`None` ↦ `Val.null`, `dict` ↦ `Val.obj` with an
association list that preserves insertion order and has unique keys, as
Python dicts do).
-/

/-- JSON-compatible Python values threaded through the flow engine.
Numbers are modelled as integers (the values exercised by the flows are
integers and strings); `Val.null` is Python `None`. -/
inductive Val where
  | null : Val
  | bool : Bool → Val
  | int : Int → Val
  | str : List Char → Val
  | arr : List Val → Val
  | obj : List (List Char × Val) → Val

/-- First-match association-list lookup: `d[k]` / `k in d` for a Python dict
modelled as an insertion-ordered association list with unique keys. -/
def alookup {α : Type} : List (List Char × α) → List Char → Option α
  | [], _ => none
  | (k', v) :: rest, k => if k' = k then some v else alookup rest k

/-- Python dict assignment `d[k] = v`: replaces the value in place if the key
exists (keeping its position), otherwise appends the new pair at the end. -/
def setKey {α : Type} : List (List Char × α) → List Char → α → List (List Char × α)
  | [], k, v => [(k, v)]
  | (k', v') :: rest, k, v =>
    if k' = k then (k', v) :: rest else (k', v') :: setKey rest k v

/-- Python `old.update(new)`: key-wise shallow update, entries of `new`
written into `old` one at a time in order. -/
def dictUpdate {α : Type} (old new : List (List Char × α)) : List (List Char × α) :=
  new.foldl (fun acc kv => setKey acc kv.1 kv.2) old

namespace BaseManager

/-- `path.split('.')` from `BaseManager._get_nested_value`: splits a key path
at every dot; the empty path yields `[[]]` exactly as in Python. -/
def splitDots : List Char → List (List Char)
  | [] => [[]]
  | c :: rest =>
    if c = '.' then [] :: splitDots rest
    else
      match splitDots rest with
      | [] => [[c]]
      | h :: t => (c :: h) :: t

/-- `BaseManager._get_nested_value` (base_manager.py:52-61): walks the dotted
path through nested dicts; any miss (absent key or non-dict value on the way)
returns Python `None`, i.e. `Val.null`. A stored `None` is indistinguishable
from a miss, exactly as in the source. -/
def get_nested_value (v : Val) : List (List Char) → Val
  | [] => v
  | k :: rest =>
    match v with
    | Val.obj kvs =>
      match alookup kvs k with
      | some w => get_nested_value w rest
      | none => Val.null
    | _ => Val.null

/-- The literal text `{{context.` opening a placeholder token (braces written
as hex escapes). -/
def openTok : List Char := "\x7b\x7bcontext.".data

/-- The literal text `}}` closing a placeholder token. -/
def closeTok : List Char := "\x7d\x7d".data

/-- The full placeholder token `{{context.<p>}}` built for `str.replace` at
base_manager.py:91. -/
def tokenOf (p : List Char) : List Char := openTok ++ p ++ closeTok

/-- `re.fullmatch(r"\{\{context\.(.*?)}}", s)`: with both ends anchored the
lazy group can only capture everything strictly between the opening text and
the final `}}`; `.` does not match a newline, so a newline in the middle kills
the match. Returns the captured path. -/
def fullmatchPlaceholder (s : List Char) : Option (List Char) :=
  if openTok.isPrefixOf s ∧ closeTok.isSuffixOf s ∧ 12 ≤ s.length then
    let mid := (s.drop 10).take (s.length - 12)
    if mid.contains '\n' then none else some mid
  else none

/-- Split a character list at the first occurrence of `}}`, returning the part
before it and the part after it (the lazy-group capture of the regex). -/
def splitAtClose : List Char → Option (List Char × List Char)
  | [] => none
  | c :: rest =>
    if c = '\x7d' ∧ rest.head? = some '\x7d' then some ([], rest.tail)
    else
      match splitAtClose rest with
      | some (b, a) => some (c :: b, a)
      | none => none

/-- `re.findall(r"\{\{context\.(.*?)}}", s)`: scan left to right; at a
position where `{{context.` matches and a `}}` follows before any newline,
capture the text between and resume after the `}}`; otherwise advance one
character. -/
def findPlaceholders (l : List Char) : List (List Char) :=
  match l with
  | [] => []
  | c :: rest =>
    if openTok.isPrefixOf (c :: rest) then
      match h : splitAtClose ((c :: rest).drop 10) with
      | some (cap, after) =>
        if cap.contains '\n' then findPlaceholders rest
        else cap :: findPlaceholders after
      | none => findPlaceholders rest
    else findPlaceholders rest
termination_by l.length
decreasing_by
  · simp
  · have hlen : ∀ l b a : List Char, splitAtClose l = some (b, a) →
        l.length = b.length + 2 + a.length := by
      intro l
      induction l with
      | nil => intro b a h; simp [splitAtClose] at h
      | cons c rest ih =>
        intro b a h
        rw [splitAtClose] at h
        by_cases hc : c = '\x7d' ∧ rest.head? = some '\x7d'
        · rw [if_pos hc] at h
          obtain ⟨hb, ha⟩ := Prod.mk.injEq .. ▸ Option.some.injEq .. ▸ h
          cases rest with
          | nil => simp at hc
          | cons d t =>
            subst hb ha
            simp
            omega
        · rw [if_neg hc] at h
          cases hsp : splitAtClose rest with
          | none => rw [hsp] at h; simp at h
          | some p =>
            obtain ⟨b', a'⟩ := p
            rw [hsp] at h
            simp only [Option.some.injEq, Prod.mk.injEq] at h
            obtain ⟨hb, ha⟩ := h
            subst hb ha
            have := ih b' a' hsp
            simp
            omega
    have := hlen _ _ _ h
    simp at this ⊢
    omega
  · simp
  · simp

/-- Python `s.replace(pat, repl)`: replace every non-overlapping occurrence of
`pat`, scanning left to right. (The empty-pattern case never arises here: the
pattern is always a full placeholder token of length at least 12.) -/
def replaceAll (pat repl : List Char) (s : List Char) : List Char :=
  match s with
  | [] => []
  | c :: rest =>
    if pat ≠ [] ∧ pat.isPrefixOf (c :: rest) then
      repl ++ replaceAll pat repl ((c :: rest).drop pat.length)
    else c :: replaceAll pat repl rest
termination_by s.length
decreasing_by
  · rename_i hp
    have hpos : 0 < pat.length := List.length_pos.mpr hp.1
    simp
    omega
  · simp

/-- String escaping of `json.dumps` for the characters that occur in this
development (quote, backslash and the common control characters). -/
def jsonEscape : List Char → List Char
  | [] => []
  | c :: rest =>
    (if c = '"' then ['\\', '"']
     else if c = '\\' then ['\\', '\\']
     else if c = '\n' then ['\\', 'n']
     else if c = '\t' then ['\\', 't']
     else if c = '\r' then ['\\', 'r']
     else [c]) ++ jsonEscape rest

mutual

/-- Python `json.dumps(v)` with its default separators `", "` and `": "`,
used at base_manager.py:87 to serialize a dict or list before embedding it
into a larger string. -/
def jsonDumps : Val → List Char
  | Val.null => "null".data
  | Val.bool true => "true".data
  | Val.bool false => "false".data
  | Val.int n => (toString n).data
  | Val.str s => '"' :: (jsonEscape s ++ ['"'])
  | Val.arr xs => '[' :: (jsonDumpsArr xs ++ [']'])
  | Val.obj kvs => '\x7b' :: (jsonDumpsObj kvs ++ ['\x7d'])

/-- Comma-separated serialization of the elements of a JSON array. -/
def jsonDumpsArr : List Val → List Char
  | [] => []
  | [x] => jsonDumps x
  | x :: y :: rest => jsonDumps x ++ ',' :: ' ' :: jsonDumpsArr (y :: rest)

/-- Comma-separated serialization of the entries of a JSON object. -/
def jsonDumpsObj : List (List Char × Val) → List Char
  | [] => []
  | [(k, v)] => '"' :: jsonEscape k ++ '"' :: ':' :: ' ' :: jsonDumps v
  | (k, v) :: p :: rest =>
    ('"' :: jsonEscape k ++ '"' :: ':' :: ' ' :: jsonDumps v) ++
      ',' :: ' ' :: jsonDumpsObj (p :: rest)

end

/-- The replacement text computed at base_manager.py:86-89: a dict or list is
serialized with `json.dumps`, any other retrieved value is converted with
Python `str(...)`. (`None` never reaches this point: it is filtered out by
the `is not None` guard.) -/
def serializeForEmbed : Val → List Char
  | Val.obj kvs => jsonDumps (Val.obj kvs)
  | Val.arr xs => jsonDumps (Val.arr xs)
  | Val.str s => s
  | Val.bool true => "True".data
  | Val.bool false => "False".data
  | Val.int n => (toString n).data
  | Val.null => "None".data

/-- One iteration of the substitution loop of base_manager.py:80-91: look up
the placeholder's dotted path; if the lookup is not `None`, replace every
occurrence of the full token by the serialized value, else leave the string
unchanged. -/
def substituteOne (ctx : Val) (acc : List Char) (p : List Char) : List Char :=
  match get_nested_value ctx (splitDots p) with
  | Val.null => acc
  | v => replaceAll (tokenOf p) (serializeForEmbed v) acc

/-- The substitution loop of base_manager.py:80-91 over all found
placeholders. -/
def substituteAll (ctx : Val) (ps : List (List Char)) (s : List Char) : List Char :=
  ps.foldl (substituteOne ctx) s

/-- `BaseManager._format_input` (base_manager.py:63-102). A string equal to a
single placeholder (per `re.fullmatch`) resolves to the raw context value; any
other string goes through the textual-substitution loop; lists and dicts are
formatted recursively; everything else passes through unchanged. -/
def format_input (value : Val) (ctx : Val) : Val :=
  match value with
  | Val.str s =>
    match fullmatchPlaceholder s with
    | some p => get_nested_value ctx (splitDots p)
    | none => Val.str (substituteAll ctx (findPlaceholders s) s)
  | Val.arr xs => Val.arr (xs.attach.map fun e => format_input e.1 ctx)
  | Val.obj kvs => Val.obj (kvs.attach.map fun e => (e.1.1, format_input e.1.2 ctx))
  | Val.null => Val.null
  | Val.bool b => Val.bool b
  | Val.int n => Val.int n
termination_by sizeOf value
decreasing_by
  · have := List.sizeOf_lt_of_mem e.2
    simp
    omega
  · have h1 := List.sizeOf_lt_of_mem e.2
    have h2 : sizeOf e.1.2 < sizeOf e.1 := by
      obtain ⟨⟨k, v⟩, hm⟩ := e
      simp
    simp
    omega

/-- One flow step as read from the managers JSON file (base_manager.py:
`step.get('assistant')`, `step.get('method')`, `step.get('inputs', {})`,
`'outputs' in step`). A step with no `assistant` key yields Python `None`,
which is never a registry key, so lookup fails. The step `id` is optional:
`step.get('id', float('inf'))` sorts id-less steps last. -/
structure Step where
  id : Option Int
  assistant : Option (List Char)
  method : List Char
  inputs : Val
  outputs : Option (List (List Char × List Char))

/-- An assistant as seen by the flow engine: a bag of named callable methods.
A method is modelled as a function from its (formatted) keyword-argument dict
to the value it returns (Pydantic results already converted to dicts). -/
structure Assistant where
  methods : List (List Char × (Val → Val))

/-- The `self.assistants` registry passed to the manager constructor. -/
def Registry : Type := List (List Char × Assistant)

/-- Mutable state of one flow run: the live context dict plus the sequence of
snapshots written to the user-input JSON file by `_save_user_input` (each
write-through appends the full context saved at that moment). -/
structure FlowState where
  context : List (List Char × Val)
  savedFiles : List (List (List Char × Val))

/-- Assistant and method lookup of base_manager.py:129-137:
`self.assistants.get(assistant_name)` followed by
`getattr(assistant, method_name, None)` and the `callable` check. Returns the
bound method, or `none` when the assistant or the method is absent. -/
def resolveCallable (reg : Registry) (s : Step) : Option (Val → Val) :=
  match s.assistant with
  | none => none
  | some a =>
    match alookup reg a with
    | none => none
    | some asst => alookup asst.methods s.method

/-- The output-storing loop of base_manager.py:151-163: for each
`result_key → context_key` pair of the step's `outputs` dict, when the result
key is literally `"result"`, either shallow-merge the returned dict into an
existing dict at the context key, or set the value outright. -/
def storeOutputs (outs : List (List Char × List Char)) (result : Val)
    (ctx : List (List Char × Val)) : List (List Char × Val) :=
  outs.foldl
    (fun c kv =>
      if kv.1 = "result".data then
        match alookup c kv.2, result with
        | some (Val.obj m), Val.obj r => setKey c kv.2 (Val.obj (dictUpdate m r))
        | _, _ => setKey c kv.2 result
      else c)
    ctx

/-- The body of one successfully resolved step (base_manager.py:140-167):
format the inputs against the live context, call the method, store/merge the
declared outputs, and if the step's assistant is the conversational collector
`'ask_user'`, write the whole current context through to the user-input file. -/
def execStep (st : FlowState) (s : Step) (f : Val → Val) : FlowState :=
  let inputs := format_input s.inputs (Val.obj st.context)
  let result := f inputs
  let ctx' :=
    match s.outputs with
    | some outs => storeOutputs outs result st.context
    | none => st.context
  if s.assistant = some "ask_user".data then
    ⟨ctx', st.savedFiles ++ [ctx']⟩
  else
    ⟨ctx', st.savedFiles⟩

/-- The step loop of `BaseManager.run_flow` (base_manager.py:123-167) over an
already id-sorted step list: a step whose assistant or method cannot be
resolved aborts the whole run (plain `return`), leaving the state as it was
after the last completed step. -/
def runSteps (reg : Registry) : List Step → FlowState → FlowState
  | [], st => st
  | s :: rest, st =>
    match resolveCallable reg s with
    | none => st
    | some f => runSteps reg rest (execStep st s f)

/-- Sort key of base_manager.py:121: `x.get('id', float('inf'))` — a step
without an id sorts after every step with one. -/
def idLe (s t : Step) : Bool :=
  match s.id, t.id with
  | some a, some b => a ≤ b
  | some _, none => true
  | none, some _ => false
  | none, none => true

/-- `BaseManager.run_flow` on a manager configuration: sort the steps by id
(Python `sorted` is stable, as is `mergeSort`) and execute them in order
starting from the current context and an empty history of file writes. -/
def run_flow (reg : Registry) (steps : List Step) (ctx : List (List Char × Val)) : FlowState :=
  runSteps reg (steps.mergeSort idLe) ⟨ctx, []⟩

end BaseManager

namespace KnowledgeBase

/-- A raw document returned by the Source Loader: a `{"path": ..,
"content": ..}` record (load.py:32). -/
structure Doc where
  path : List Char
  content : List Char
deriving DecidableEq

/-- One logical unit of `DartFileAnalysis.model_dump()` (split.py:38-47),
restricted to the fields `_populate` reads. Each field may be `None`. -/
structure LogicalUnit where
  name : Option (List Char)
  type : Option (List Char)
  purpose : Option (List Char)

/-- The dict produced by `DartFileAnalysis.model_dump()` (split.py:50-54).
In the source `logical_units` is `Optional`; a literal `None` there would
raise a `TypeError` when `_populate` iterates it, a path no claim exercises,
so the model keeps the list (possibly empty). -/
structure Analysis where
  file_purpose : List Char
  logical_units : List LogicalUnit

/-- Rendering of an optional value inside an f-string: Python prints a
present string as-is and `None` as the text `None` (`unit.get('name', 'N/A')`
returns the stored `None`, not the default, because `model_dump` always
materializes the key). -/
def pyOptStr : Option (List Char) → List Char
  | some s => s
  | none => "None".data

/-- The per-unit chunk text of knowledge_base.py:53-57:
`"Unit Name: {name}\nType: {type}\nPurpose: {purpose}"`. -/
def unitChunkContent (u : LogicalUnit) : List Char :=
  "Unit Name: ".data ++ pyOptStr u.name ++ "\n".data ++
  "Type: ".data ++ pyOptStr u.type ++ "\n".data ++
  "Purpose: ".data ++ pyOptStr u.purpose

/-- The chunks `_populate` collects for one loaded document
(knowledge_base.py:35-60), given the outcome of the structured split:
on split failure, the whole file is kept as a single `(content, path)` chunk
but only when both `doc['content']` and `doc['path']` are truthy (non-empty);
on success, one chunk for the file purpose plus one chunk per logical unit
with the derived `path#unitName` path. -/
def chunksForDoc (split : List Char → Option Analysis) (d : Doc) :
    List (List Char × List Char) :=
  match split d.content with
  | none =>
    if d.content ≠ [] ∧ d.path ≠ [] then [(d.content, d.path)] else []
  | some a =>
    (a.file_purpose, d.path) ::
      a.logical_units.map
        (fun u => (unitChunkContent u, d.path ++ "#".data ++ pyOptStr u.name))

/-- Observable side effects of a `populate` run, in order: loading one
configured source, one structured-split call, one batch `add_documents`, one
index save. -/
inductive Effect where
  | loadSource : List Char → Effect
  | splitCall : List Char → Effect
  | addDocs : Nat → Effect
  | saveIndex : Effect

/-- Result of a `populate` run: the in-memory docstore (none = uninitialized
index), the persisted directory content after the run, and the effect log. -/
structure PopulateResult where
  docstore : Option (List (List Char × List Char))
  disk : Option (List (List Char × List Char))
  effects : List Effect

/-- Effect log of the ingestion loop of knowledge_base.py:31-60: each source
is loaded, then every one of its documents goes through one structured-split
call. -/
def ingestEffects (loadFn : List Char → List Doc) (sources : List (List Char)) :
    List Effect :=
  sources.flatMap
    (fun s => Effect.loadSource s :: (loadFn s).map (fun d => Effect.splitCall d.content))

/-- All chunks collected across all sources (knowledge_base.py:29-60). -/
def ingestChunks (loadFn : List Char → List Doc) (split : List Char → Option Analysis)
    (sources : List (List Char)) : List (List Char × List Char) :=
  sources.flatMap (fun s => (loadFn s).flatMap (chunksForDoc split))

/-- The non-short-circuit tail of `_populate` (knowledge_base.py:23-68):
return early on an empty source list; otherwise collect chunks, and only when
some chunks exist add them to the store in one batch (appending to a loaded
index, or creating a fresh one) and save the index to disk. -/
def ingestRun (loadFn : List Char → List Doc) (split : List Char → Option Analysis)
    (sources : List (List Char)) (index0 disk : Option (List (List Char × List Char))) :
    PopulateResult :=
  if sources = [] then ⟨index0, disk, []⟩
  else
    let chunks := ingestChunks loadFn split sources
    if chunks = [] then ⟨index0, disk, ingestEffects loadFn sources⟩
    else
      let newIndex := index0.getD [] ++ chunks
      ⟨some newIndex, some newIndex,
        ingestEffects loadFn sources ++ [Effect.addDocs chunks.length, Effect.saveIndex]⟩

/-- `KnowledgeBase._populate` (knowledge_base.py:14-68) composed with
`StoreBase.create` (embed_store.py:30-49): `disk` is the outcome of loading
the persisted index (none = directory absent or load failed). When the loaded
index is non-empty, the run short-circuits; otherwise it ingests from the
configured sources. -/
def populate (loadFn : List Char → List Doc) (split : List Char → Option Analysis)
    (sources : List (List Char)) (disk : Option (List (List Char × List Char))) :
    PopulateResult :=
  match disk with
  | some d =>
    if 0 < d.length then ⟨some d, disk, []⟩
    else ingestRun loadFn split sources (some d) disk
  | none => ingestRun loadFn split sources none none

/-- Squared L2 distance between two embedding vectors, the metric of
`faiss.IndexFlatL2` (store.py:16,32). -/
def sqDist (q v : List Int) : Int :=
  ((q.zip v).map (fun p => (p.1 - p.2) ^ 2)).sum

/-- Model of `faiss.IndexFlatL2.search` (store.py:55): the indices of the `k`
nearest stored vectors, ordered by ascending squared L2 distance to the
query, ties broken by insertion order (stable sort of the index positions). -/
def faissSearch (index : List (List Int)) (q : List Int) (k : Nat) : List Nat :=
  ((List.range index.length).mergeSort
    (fun i j => decide (sqDist q (index.getD i []) ≤ sqDist q (index.getD j [])))).take k

/-- `StoreBase.search` (store.py:48-57): embed the query; when the embedding
is truthy (present and non-empty) and the index holds at least one vector,
clamp `k` to `ntotal`, run the index search and map the returned positions
back through the parallel document list; in every other case return `[]`.
The function is total: no input makes it raise. -/
def storeSearch (emb : List Char → Option (List Int)) (index : List (List Int))
    (docs : List Doc) (query : List Char) (k : Nat) : List Doc :=
  match emb query with
  | some e =>
    if e ≠ [] ∧ 0 < index.length then
      (faissSearch index e (min k index.length)).map (fun i => docs.getD i ⟨[], []⟩)
    else []
  | none => []

end KnowledgeBase


namespace KnowledgeBase

/-- A node of the local filesystem tree walked by `load_from_local_path`
(load.py:13-43): a file holds `some content` when readable and `none` when
reading it raises, a directory holds its entries in listing order. -/
inductive FSTree where
  | file : List Char → Option (List Char) → FSTree
  | dir : List Char → List FSTree → FSTree

/-- `any(filename.endswith(ext) for ext in allowed_extensions)` (load.py:25). -/
def okExt (allowed : List (List Char)) (fname : List Char) : Bool :=
  allowed.any (fun ext => ext.isSuffixOf fname)

/-- `os.path.join(dirpath, name)` for the POSIX paths the loader walks. -/
def pathJoin (p n : List Char) : List Char := p ++ "/".data ++ n

/-- The read-tasks created from the plain files of one directory's entry list
(load.py:24-37): for every extension-matched file one `read_file()` coroutine
is appended, carrying the full path pinned by the `path=full_path` default
argument together with the read outcome of the file at that path (`some`
content when readable, `none` when opening it raises). -/
def tasksAt (allowed : List (List Char)) (p : List Char) (entries : List FSTree) :
    List (List Char × Option (List Char)) :=
  entries.filterMap
    (fun e =>
      match e with
      | FSTree.file n c =>
        if okExt allowed n then some (pathJoin p n, c) else none
      | _ => none)

mutual

/-- The `os.walk` visit of one directory entry (load.py:22-37): a plain file
contributes nothing here (files are collected by the parent's listing), a
subdirectory whose name starts with a dot is pruned by
`dirnames[:] = [d for d in dirnames if not d.startswith(".")]` — so no task
is ever created below it — and any other subdirectory yields its own tasks
and then its subdirectory walk, depth first. -/
def walkTree (allowed : List (List Char)) (p : List Char) :
    FSTree → List (List Char × Option (List Char))
  | FSTree.file _ _ => []
  | FSTree.dir n ch =>
    if n.head? = some '.' then []
    else tasksAt allowed (pathJoin p n) ch ++ walkSubdirs allowed (pathJoin p n) ch

/-- The walk of a directory's subdirectory entries, in listing order. -/
def walkSubdirs (allowed : List (List Char)) (p : List Char) :
    List FSTree → List (List Char × Option (List Char))
  | [] => []
  | e :: rest => walkTree allowed p e ++ walkSubdirs allowed p rest

end

/-- All read-tasks created by `os.walk(root)` (load.py:22-37) over the
entries of one directory: its own matched files first, then the pruned
recursive walk of its subdirectories. -/
def walkEntries (allowed : List (List Char)) (p : List Char)
    (entries : List FSTree) : List (List Char × Option (List Char)) :=
  tasksAt allowed p entries ++ walkSubdirs allowed p entries

/-- `load_from_local_path(root_path)` (load.py:13-43) as it actually
executes. Each `read_file` coroutine pins only `path` as a default argument;
the `aiofiles.open` call inside it uses the closure variable `full_path`,
which is late-bound, and the coroutine bodies first run inside
`asyncio.gather` after the walk loop has finished — so every task opens the
LAST matched file. When that file is readable with content `c`, every task
returns a record pairing its own pinned path with `c`; when it is unreadable,
every task raises into its `except` branch, returns `None`, and the final
comprehension drops everything. With no matched file, `gather` of an empty
task list yields `[]`. -/
def load_from_local_path (allowed : List (List Char)) (rootPath : List Char)
    (rootEntries : List FSTree) : List Doc :=
  let tasks := walkEntries allowed rootPath rootEntries
  match tasks.getLast? with
  | none => []
  | some last =>
    match last.2 with
    | some c => tasks.map (fun t => ⟨t.1, c⟩)
    | none => []

/-- The user content actually sent by `split_str_into_logical_chunks`
(split.py:59-62): `file_content[:120].replace('\n', ' ') + '...'` — the
120-character log preview, not the full file content. -/
def sentUserContent (file_content : List Char) : List Char :=
  (file_content.take 120).map (fun c => if c = '\n' then ' ' else c) ++ "...".data

/-- The fixed system prompt `PROMPT_TO_READ_DART_FILE` of split.py:7-35
(braces and apostrophes written as hex escapes). -/
def PROMPT_TO_READ_DART_FILE : List Char :=
  ("\nYou are a highly experienced Flutter engineer. Your task is to analyze a given Dart file and return a structured analysis of its contents in a specific JSON format.\n\nAnalysis Instructions:\n\nRead the filename and directory path to infer context (e.g., user_repository.dart in /lib/data/ suggests user data logic).\nLook for top-level documentation comments (///) to understand the file\x27s primary role.\nIdentify the primary class or function, which often matches the filename.\nFor each logical unit (class, function, etc.), determine its purpose by examining its signature, documentation comments, and the code within its body.\n\nOutput Format:\n\nReturn the analysis strictly in the following JSON format. Do not include any other text, explanations, or markdown formatting in your response.\n\nJSON\n\n\x7b\n  \"file_purpose\": \"A summary of the entire file\x27s role.\",\n  \"logical_units\": [\n    \x7b\n      \"name\": \"unit_name\",\n      \"type\": \"class | enum | interface | function | parameter\",\n      \"purpose\": \"<A concise summary of the unit\x27s purpose>\",\n      \"dependencies\": [\"<dependency1>\", \"<dependency2>\"],\n      \"returnType\": \"<The unit\x27s return type or null>\"\n    \x7d\n  ]\n\x7d\n").data

/-- One structured-generation request as handed to `LLMApis.split`
(llm_apis.py:20-36): the system message, the user message, and whether the
`DartFileAnalysis` JSON schema was attached as the `format` argument. -/
structure SplitRequest where
  systemPrompt : List Char
  userContent : List Char
  schemaAttached : Bool
deriving DecidableEq

/-- `split_str_into_logical_chunks` (split.py:57-76) with its two external
collaborators as oracles: `api` is the Gateway call (none = the call raised),
`validate` is `DartFileAnalysis.model_validate_json` (none = parse or schema
validation raised). Returns the analysis outcome together with the list of
Gateway requests issued, in order — the source makes exactly one request and
never retries. -/
def split_str_into_logical_chunks
    (api : SplitRequest → Option (List Char))
    (validate : List Char → Option Analysis)
    (file_content : List Char) : Option Analysis × List SplitRequest :=
  let req : SplitRequest := ⟨PROMPT_TO_READ_DART_FILE, sentUserContent file_content, true⟩
  match api req with
  | none => (none, [req])
  | some response_text => (validate response_text, [req])

end KnowledgeBase


section DictLemmas

theorem alookup_setKey_self {α : Type} (c : List (List Char × α)) (k : List Char) (v : α) :
    alookup (setKey c k v) k = some v := by
  induction c with
  | nil => simp [setKey, alookup]
  | cons kv rest ih =>
    obtain ⟨k', v'⟩ := kv
    by_cases h : k' = k
    · subst h
      simp [setKey, alookup]
    · simp [setKey, alookup, h, ih]

theorem alookup_setKey_other {α : Type} (c : List (List Char × α)) (k kq : List Char)
    (v : α) (hne : kq ≠ k) : alookup (setKey c k v) kq = alookup c kq := by
  have hne' : ¬(k = kq) := fun h => hne h.symm
  induction c with
  | nil => simp [setKey, alookup, hne']
  | cons kv rest ih =>
    obtain ⟨k', v'⟩ := kv
    by_cases h : k' = k
    · subst h
      simp [setKey, alookup, hne']
    · by_cases h2 : k' = kq
      · subst h2
        simp [setKey, alookup, h]
      · simp [setKey, alookup, h, h2, ih]

theorem alookup_eq_none_of_not_mem {α : Type} (c : List (List Char × α)) (k : List Char)
    (h : k ∉ c.map Prod.fst) : alookup c k = none := by
  induction c with
  | nil => simp [alookup]
  | cons kv rest ih =>
    cases kv with
    | mk k' v' =>
      rw [List.map_cons, List.mem_cons] at h
      push_neg at h
      have hh : alookup ((k', v') :: rest) k = if k' = k then some v' else alookup rest k := rfl
      rw [hh, if_neg (fun he => h.1 he.symm)]
      exact ih h.2

theorem alookup_dictUpdate_none {α : Type} (r : List (List Char × α)) :
    ∀ m : List (List Char × α), ∀ key, alookup r key = none →
      alookup (dictUpdate m r) key = alookup m key := by
  induction r with
  | nil => intro m key _; simp [dictUpdate]
  | cons kv rest ih =>
    intro m key h
    cases kv with
    | mk k0 v0 =>
      have hstep : dictUpdate m ((k0, v0) :: rest) = dictUpdate (setKey m k0 v0) rest := by
        simp [dictUpdate]
      have hcons : alookup ((k0, v0) :: rest) key
          = if k0 = key then some v0 else alookup rest key := rfl
      rw [hcons] at h
      by_cases hk : k0 = key
      · rw [if_pos hk] at h
        exact absurd h (by simp)
      · rw [if_neg hk] at h
        rw [hstep, ih (setKey m k0 v0) key h,
          alookup_setKey_other m k0 key v0 (fun he => hk he.symm)]

theorem alookup_dictUpdate_some {α : Type} (r : List (List Char × α)) :
    ∀ m : List (List Char × α), (r.map Prod.fst).Nodup → ∀ key v,
      alookup r key = some v → alookup (dictUpdate m r) key = some v := by
  induction r with
  | nil => intro m _ key v h; exact absurd h (by simp [alookup])
  | cons kv rest ih =>
    intro m hnd key v h
    cases kv with
    | mk k0 v0 =>
      have hstep : dictUpdate m ((k0, v0) :: rest) = dictUpdate (setKey m k0 v0) rest := by
        simp [dictUpdate]
      have hcons : alookup ((k0, v0) :: rest) key
          = if k0 = key then some v0 else alookup rest key := rfl
      rw [hcons] at h
      rw [List.map_cons, List.nodup_cons] at hnd
      by_cases hk : k0 = key
      · rw [if_pos hk] at h
        subst hk
        have hnone : alookup rest k0 = none :=
          alookup_eq_none_of_not_mem rest k0 hnd.1
        rw [hstep, alookup_dictUpdate_none rest (setKey m k0 v0) k0 hnone,
          alookup_setKey_self]
        exact h
      · rw [if_neg hk] at h
        rw [hstep]
        exact ih (setKey m k0 v0) hnd.2 key v h

/-- `storeOutputs` on the single pair `("result", K)` reduced to its two
branches. -/
theorem storeOutputs_single (K : List Char) (result : Val) (ctx : List (List Char × Val)) :
    BaseManager.storeOutputs [("result".data, K)] result ctx =
      match alookup ctx K, result with
      | some (Val.obj m), Val.obj r => setKey ctx K (Val.obj (dictUpdate m r))
      | _, _ => setKey ctx K result := by
  rfl

end DictLemmas


/-- C1: for a flow step whose outputs mapping declares `"result" → K`,
`run_flow` shallow-merges a dict return value into an existing dict at
context key `K` — colliding keys take the new value, keys absent from the
new value keep the old one — and in every other case (the entry at `K`
missing or not a dict, or the return value not a dict) it sets `K` to the
return value outright; other context keys are untouched either way. The
`Nodup` hypothesis records that the new value is a Python dict, whose keys
are necessarily distinct. -/
theorem runFlow_output_merge_semantics
    (ctx : List (List Char × Val)) (K : List Char) (result : Val) :
    (∀ m r, alookup ctx K = some (Val.obj m) → result = Val.obj r →
      (r.map Prod.fst).Nodup →
      alookup (BaseManager.storeOutputs [("result".data, K)] result ctx) K
          = some (Val.obj (dictUpdate m r)) ∧
      (∀ key v, alookup r key = some v → alookup (dictUpdate m r) key = some v) ∧
      (∀ key, alookup r key = none → alookup (dictUpdate m r) key = alookup m key) ∧
      (∀ K', K' ≠ K →
        alookup (BaseManager.storeOutputs [("result".data, K)] result ctx) K'
          = alookup ctx K'))
    ∧
    (((∀ m, alookup ctx K ≠ some (Val.obj m)) ∨ (∀ r, result ≠ Val.obj r)) →
      alookup (BaseManager.storeOutputs [("result".data, K)] result ctx) K
        = some result ∧
      (∀ K', K' ≠ K →
        alookup (BaseManager.storeOutputs [("result".data, K)] result ctx) K'
          = alookup ctx K')) := by
  constructor
  · intro m r h1 h2 hnd
    subst h2
    have hout : BaseManager.storeOutputs [("result".data, K)] (Val.obj r) ctx
        = setKey ctx K (Val.obj (dictUpdate m r)) := by
      rw [storeOutputs_single, h1]
    refine ⟨?_, ?_, ?_, ?_⟩
    · rw [hout, alookup_setKey_self]
    · intro key v hv
      exact alookup_dictUpdate_some r m hnd key v hv
    · intro key hv
      exact alookup_dictUpdate_none r m key hv
    · intro K' hne
      rw [hout, alookup_setKey_other ctx K K' _ hne]
  · intro hother
    have hout : BaseManager.storeOutputs [("result".data, K)] result ctx
        = setKey ctx K result := by
      rw [storeOutputs_single]
      cases hctx : alookup ctx K with
      | none => cases result <;> rfl
      | some v =>
        cases v with
        | null => cases result <;> rfl
        | bool b => cases result <;> rfl
        | int n => cases result <;> rfl
        | str s => cases result <;> rfl
        | arr xs => cases result <;> rfl
        | obj m =>
          cases hother with
          | inl hnotobj => exact absurd hctx (hnotobj m)
          | inr hnotr =>
            cases result with
            | null => rfl
            | bool b => rfl
            | int n => rfl
            | str s => rfl
            | arr xs => rfl
            | obj r => exact absurd rfl (hnotr r)
    refine ⟨?_, ?_⟩
    · rw [hout, alookup_setKey_self]
    · intro K' hne
      rw [hout, alookup_setKey_other ctx K K' _ hne]

/-- Witness for C1 at the spec's own example: context `{"user_inputs":
{"a": 1}}`, return value `{"b": 2}`, outputs `{"result": "user_inputs"}` —
the merged entry is `{"a": 1, "b": 2}`. -/
theorem runFlow_output_merge_semantics_witness :
    alookup
      (BaseManager.storeOutputs [("result".data, "user_inputs".data)]
        (Val.obj [("b".data, Val.int 2)])
        [("user_inputs".data, Val.obj [("a".data, Val.int 1)])])
      "user_inputs".data
      = some (Val.obj [("a".data, Val.int 1), ("b".data, Val.int 2)]) := by
  have h :=
    ((runFlow_output_merge_semantics
        [("user_inputs".data, Val.obj [("a".data, Val.int 1)])]
        "user_inputs".data (Val.obj [("b".data, Val.int 2)])).1
      [("a".data, Val.int 1)] [("b".data, Val.int 2)] rfl rfl (by simp)).1
  rw [h]
  rfl

/-- C4: a step whose assistant is absent from the registry, or whose method
is not a callable attribute of that assistant (`resolveCallable` is `none`),
stops `run_flow` without executing that step or any later one: the final
state equals the state after the last successfully completed step, no
exception is raised (the model is a total function), and nothing written by
earlier steps is rolled back. -/
theorem runFlow_missing_registry_aborts
    (reg : BaseManager.Registry) (pre : List BaseManager.Step)
    (bad : BaseManager.Step) (rest : List BaseManager.Step)
    (st : BaseManager.FlowState)
    (hpre : ∀ s ∈ pre, (BaseManager.resolveCallable reg s).isSome)
    (hbad : BaseManager.resolveCallable reg bad = none) :
    BaseManager.runSteps reg (pre ++ bad :: rest) st
      = BaseManager.runSteps reg pre st := by
  induction pre generalizing st with
  | nil =>
    have h1 : BaseManager.runSteps reg (bad :: rest) st
        = match BaseManager.resolveCallable reg bad with
          | none => st
          | some f => BaseManager.runSteps reg rest (BaseManager.execStep st bad f) := rfl
    rw [List.nil_append, h1, hbad]
    rfl
  | cons s pre ih =>
    have hs := hpre s (by simp)
    cases hf : BaseManager.resolveCallable reg s with
    | none => rw [hf] at hs; simp at hs
    | some f =>
      have h1 : ∀ (l : List BaseManager.Step) st',
          BaseManager.runSteps reg (s :: l) st'
            = BaseManager.runSteps reg l (BaseManager.execStep st' s f) := by
        intro l st'
        have : BaseManager.runSteps reg (s :: l) st'
            = match BaseManager.resolveCallable reg s with
              | none => st'
              | some f' => BaseManager.runSteps reg l (BaseManager.execStep st' s f') := rfl
        rw [this, hf]
      rw [List.cons_append, h1 (pre ++ bad :: rest), h1 pre]
      exact ih (BaseManager.execStep st s f)
        (fun s' hs' => hpre s' (List.mem_cons_of_mem s hs'))

/-- Witness for C4: a two-assistant-free registry with one registered
assistant; the first step resolves, the second names an unregistered
assistant, and the run's final state equals the state after the first step
alone, with the third step never running. -/
theorem runFlow_missing_registry_aborts_witness :
    BaseManager.runSteps
      [("gen".data, ⟨[("run".data, fun _ => Val.int 7)]⟩)]
      ([⟨some 1, some "gen".data, "run".data, Val.obj [],
          some [("result".data, "x".data)]⟩] ++
        ⟨some 2, some "ghost".data, "run".data, Val.obj [], none⟩ ::
          [⟨some 3, some "gen".data, "run".data, Val.obj [],
            some [("result".data, "y".data)]⟩])
      ⟨[], []⟩
      = BaseManager.runSteps
          [("gen".data, ⟨[("run".data, fun _ => Val.int 7)]⟩)]
          [⟨some 1, some "gen".data, "run".data, Val.obj [],
            some [("result".data, "x".data)]⟩]
          ⟨[], []⟩ :=
  runFlow_missing_registry_aborts
    [("gen".data, ⟨[("run".data, fun _ => Val.int 7)]⟩)]
    [⟨some 1, some "gen".data, "run".data, Val.obj [],
      some [("result".data, "x".data)]⟩]
    ⟨some 2, some "ghost".data, "run".data, Val.obj [], none⟩
    [⟨some 3, some "gen".data, "run".data, Val.obj [],
      some [("result".data, "y".data)]⟩]
    ⟨[], []⟩
    (by
      intro s hs
      rw [List.mem_singleton] at hs
      subst hs
      rfl)
    rfl

/-- The file writes performed by one resolved step: a step of the `ask_user`
assistant appends one snapshot holding the full post-step context, any other
step writes nothing. -/
theorem execStep_savedFiles (st : BaseManager.FlowState) (s : BaseManager.Step)
    (f : Val → Val) :
    (BaseManager.execStep st s f).savedFiles =
      if s.assistant = some "ask_user".data
      then st.savedFiles ++ [(BaseManager.execStep st s f).context]
      else st.savedFiles := by
  by_cases ha : s.assistant = some "ask_user".data <;>
    simp [BaseManager.execStep, ha]

/-- Snapshots already written to the user-input file are never removed by
later steps: `runSteps` only appends to the write history. -/
theorem runSteps_savedFiles_mono (reg : BaseManager.Registry) :
    ∀ (steps : List BaseManager.Step) (st : BaseManager.FlowState),
      ∃ extra, (BaseManager.runSteps reg steps st).savedFiles
        = st.savedFiles ++ extra := by
  intro steps
  induction steps with
  | nil => intro st; exact ⟨[], by simp [BaseManager.runSteps]⟩
  | cons s rest ih =>
    intro st
    have h0 : BaseManager.runSteps reg (s :: rest) st
        = match BaseManager.resolveCallable reg s with
          | none => st
          | some f => BaseManager.runSteps reg rest (BaseManager.execStep st s f) := rfl
    cases hf : BaseManager.resolveCallable reg s with
    | none =>
      refine ⟨[], ?_⟩
      rw [h0, hf]
      simp
    | some f =>
      rw [h0, hf]
      obtain ⟨extra, hex⟩ := ih (BaseManager.execStep st s f)
      have hsf := execStep_savedFiles st s f
      by_cases ha : s.assistant = some "ask_user".data
      · rw [if_pos ha] at hsf
        refine ⟨[(BaseManager.execStep st s f).context] ++ extra, ?_⟩
        rw [hex, hsf]
        simp
      · rw [if_neg ha] at hsf
        refine ⟨extra, ?_⟩
        rw [hex, hsf]

/-- C9 (amended): immediately after a step of the `ask_user` assistant
completes, the whole current context — not only the user-supplied answers —
is written through to the user-input JSON file (the snapshot sits in the
write history right after all earlier writes, before any later step runs);
a step of any other assistant writes nothing. -/
theorem runFlow_ask_user_write_through
    (reg : BaseManager.Registry) (s : BaseManager.Step)
    (rest : List BaseManager.Step) (st : BaseManager.FlowState) (f : Val → Val)
    (hf : BaseManager.resolveCallable reg s = some f) :
    (s.assistant = some "ask_user".data →
      ∃ later, (BaseManager.runSteps reg (s :: rest) st).savedFiles
        = st.savedFiles ++ [(BaseManager.execStep st s f).context] ++ later)
    ∧ (s.assistant ≠ some "ask_user".data →
      (BaseManager.execStep st s f).savedFiles = st.savedFiles) := by
  have h0 : BaseManager.runSteps reg (s :: rest) st
      = match BaseManager.resolveCallable reg s with
        | none => st
        | some f' => BaseManager.runSteps reg rest (BaseManager.execStep st s f') := rfl
  constructor
  · intro ha
    obtain ⟨extra, hex⟩ := runSteps_savedFiles_mono reg rest (BaseManager.execStep st s f)
    refine ⟨extra, ?_⟩
    rw [h0, hf, hex, execStep_savedFiles, if_pos ha]
  · intro ha
    rw [execStep_savedFiles, if_neg ha]

/-- Witness for the amended C9: a one-step flow whose step belongs to
`ask_user`; the write history of the run is exactly one snapshot holding the
post-step context. -/
theorem runFlow_ask_user_write_through_witness :
    ∃ later,
      (BaseManager.runSteps
        [("ask_user".data, ⟨[("ask".data, fun _ => Val.obj [("name".data, Val.str "bob".data)])]⟩)]
        [⟨some 1, some "ask_user".data, "ask".data, Val.obj [],
          some [("result".data, "user_inputs".data)]⟩]
        ⟨[], []⟩).savedFiles
      = [] ++
          [(BaseManager.execStep ⟨[], []⟩
            ⟨some 1, some "ask_user".data, "ask".data, Val.obj [],
              some [("result".data, "user_inputs".data)]⟩
            (fun _ => Val.obj [("name".data, Val.str "bob".data)])).context] ++ later :=
  (runFlow_ask_user_write_through
    [("ask_user".data, ⟨[("ask".data, fun _ => Val.obj [("name".data, Val.str "bob".data)])]⟩)]
    ⟨some 1, some "ask_user".data, "ask".data, Val.obj [],
      some [("result".data, "user_inputs".data)]⟩
    [] ⟨[], []⟩
    (fun _ => Val.obj [("name".data, Val.str "bob".data)]) rfl).1 rfl

/-- Counterexample to C9 as stated: in a flow whose first step (assistant
`gen`, not a conversational collector) stores `7` under context key `x` and
whose second step belongs to `ask_user`, the file write performed after the
second step contains the full context — including the `gen`-produced entry
`x ↦ 7` — not only the user-supplied answers. -/
theorem runFlow_save_not_only_user_subset_counterexample :
    (BaseManager.runSteps
      [("gen".data, ⟨[("run".data, fun _ => Val.int 7)]⟩),
       ("ask_user".data, ⟨[("ask".data, fun _ => Val.obj [("name".data, Val.str "bob".data)])]⟩)]
      [⟨some 1, some "gen".data, "run".data, Val.obj [],
        some [("result".data, "x".data)]⟩,
       ⟨some 2, some "ask_user".data, "ask".data, Val.obj [],
        some [("result".data, "user_inputs".data)]⟩]
      ⟨[], []⟩).savedFiles
    = [[("x".data, Val.int 7),
        ("user_inputs".data, Val.obj [("name".data, Val.str "bob".data)])]] := by
  rfl

/-- A substitution pass in which every found placeholder's dotted path
resolves to `None` changes nothing: each iteration is skipped by the
`is not None` guard. -/
theorem substituteAll_all_null (ctx : Val) :
    ∀ (ps : List (List Char)) (s : List Char),
      (∀ p ∈ ps, BaseManager.get_nested_value ctx (BaseManager.splitDots p) = Val.null) →
      BaseManager.substituteAll ctx ps s = s := by
  intro ps
  induction ps with
  | nil => intro s _; rfl
  | cons p rest ih =>
    intro s hall
    have h1 : BaseManager.substituteAll ctx (p :: rest) s
        = BaseManager.substituteAll ctx rest (BaseManager.substituteOne ctx s p) := rfl
    have h2 : BaseManager.substituteOne ctx s p = s := by
      unfold BaseManager.substituteOne
      rw [hall p (by simp)]
    rw [h1, h2]
    exact ih s (fun q hq => hall q (List.mem_cons_of_mem p hq))

/-- C2 (the code evaluated at the failing input): with context
`{"a": 1, "b": 2}` and the input string `{{context.a}} {{context.b}}` — in
which the token `{{context.a}}` occurs as a proper substring — `_format_input`
does NOT perform textual substitution (which would give the string `1 2`):
`re.fullmatch` with its lazy group matches the entire string as one
placeholder whose path is `a}} {{context.b`, the lookup of that path misses,
and the function returns `None`. -/
theorem format_input_embedded_token_swallowed_by_fullmatch :
    BaseManager.format_input
      (Val.str (BaseManager.tokenOf "a".data ++ " ".data ++ BaseManager.tokenOf "b".data))
      (Val.obj [("a".data, Val.int 1), ("b".data, Val.int 2)])
      = Val.null
    ∧ Val.null ≠ Val.str "1 2".data := by
  constructor
  · have h1 : BaseManager.fullmatchPlaceholder
        (BaseManager.tokenOf "a".data ++ " ".data ++ BaseManager.tokenOf "b".data)
        = some "a\x7d\x7d \x7b\x7bcontext.b".data := by decide
    simp only [BaseManager.format_input]
    rw [h1]
    rfl
  · exact fun h => Val.noConfusion h

/-- C3 (amended): resolution of a missing/unresolvable dotted path raises no
error (the model is a total function). When the whole input string matches
the placeholder pattern — which by the lazy `re.fullmatch` includes not only
a single token but ANY string starting with `{{context.` and ending with
`}}`, multi-token strings among them — a missing captured path yields `None`,
not the literal text. Otherwise the substitution loop runs over every found
token: an iteration whose dotted path is missing changes nothing, so the
missing token\x27s literal text is left in place even in mixed strings whose
other tokens are substituted, and a string in which every found token\x27s
path is missing is returned completely unchanged. -/
theorem format_input_missing_path_behavior (ctx : Val) (s : List Char) :
    (∀ p, BaseManager.fullmatchPlaceholder s = some p →
      BaseManager.get_nested_value ctx (BaseManager.splitDots p) = Val.null →
      BaseManager.format_input (Val.str s) ctx = Val.null)
    ∧ (BaseManager.fullmatchPlaceholder s = none →
      BaseManager.format_input (Val.str s) ctx
        = Val.str (BaseManager.substituteAll ctx (BaseManager.findPlaceholders s) s))
    ∧ (∀ acc p, BaseManager.get_nested_value ctx (BaseManager.splitDots p) = Val.null →
      BaseManager.substituteOne ctx acc p = acc)
    ∧ (BaseManager.fullmatchPlaceholder s = none →
      (∀ p ∈ BaseManager.findPlaceholders s,
        BaseManager.get_nested_value ctx (BaseManager.splitDots p) = Val.null) →
      BaseManager.format_input (Val.str s) ctx = Val.str s) := by
  refine ⟨?_, ?_, ?_, ?_⟩
  · intro p hfm hnull
    simp only [BaseManager.format_input]
    rw [hfm]
    exact hnull
  · intro hfm
    simp only [BaseManager.format_input]
    rw [hfm]
  · intro acc p hp
    unfold BaseManager.substituteOne
    rw [hp]
  · intro hfm hall
    simp only [BaseManager.format_input]
    rw [hfm]
    rw [substituteAll_all_null ctx (BaseManager.findPlaceholders s) s hall]

/-- Witness for the amended C3 against the context `\x7b"known": 1\x7d`: the
substring occurrence `x \x7b\x7bcontext.missing\x7d\x7d` is returned verbatim; the
exact-token string resolves to `None`; the loop iteration for the missing
token is the identity on any accumulator; and a mixed string holding both a
resolvable and a missing token (one that does not fullmatch, since it ends in
`!`) goes through the substitution loop. -/
theorem format_input_missing_path_behavior_witness :
    BaseManager.format_input
        (Val.str ("x ".data ++ BaseManager.tokenOf "missing".data))
        (Val.obj [("known".data, Val.int 1)])
      = Val.str ("x ".data ++ BaseManager.tokenOf "missing".data)
    ∧ BaseManager.format_input (Val.str (BaseManager.tokenOf "missing".data))
        (Val.obj [("known".data, Val.int 1)])
      = Val.null
    ∧ BaseManager.substituteOne (Val.obj [("known".data, Val.int 1)])
        ("x ".data ++ BaseManager.tokenOf "missing".data) "missing".data
      = "x ".data ++ BaseManager.tokenOf "missing".data
    ∧ BaseManager.format_input
        (Val.str (BaseManager.tokenOf "known".data ++ " and ".data ++
          BaseManager.tokenOf "missing".data ++ "!".data))
        (Val.obj [("known".data, Val.int 1)])
      = Val.str (BaseManager.substituteAll (Val.obj [("known".data, Val.int 1)])
          (BaseManager.findPlaceholders (BaseManager.tokenOf "known".data ++
            " and ".data ++ BaseManager.tokenOf "missing".data ++ "!".data))
          (BaseManager.tokenOf "known".data ++ " and ".data ++
            BaseManager.tokenOf "missing".data ++ "!".data)) := by
  refine ⟨?_, ?_, ?_, ?_⟩
  · refine (format_input_missing_path_behavior (Val.obj [("known".data, Val.int 1)])
      ("x ".data ++ BaseManager.tokenOf "missing".data)).2.2.2 (by decide) ?_
    intro p hp
    simp [BaseManager.findPlaceholders, BaseManager.splitAtClose, BaseManager.openTok,
      BaseManager.tokenOf, BaseManager.closeTok] at hp
    subst hp
    rfl
  · exact (format_input_missing_path_behavior (Val.obj [("known".data, Val.int 1)])
      (BaseManager.tokenOf "missing".data)).1 "missing".data (by decide) rfl
  · exact (format_input_missing_path_behavior (Val.obj [("known".data, Val.int 1)])
      (BaseManager.tokenOf "missing".data)).2.2.1
      ("x ".data ++ BaseManager.tokenOf "missing".data) "missing".data rfl
  · exact (format_input_missing_path_behavior (Val.obj [("known".data, Val.int 1)])
      (BaseManager.tokenOf "known".data ++ " and ".data ++
        BaseManager.tokenOf "missing".data ++ "!".data)).2.1 (by decide)

/-- Counterexample to C3 as stated: for the input string that is exactly the
token `{{context.missing}}` over the empty context, `_format_input` returns
`None` (`Val.null`), not the literal placeholder text the claim promises. -/
theorem format_input_full_token_missing_counterexample :
    BaseManager.format_input
        (Val.str (BaseManager.tokenOf "missing".data)) (Val.obj [])
      = Val.null
    ∧ Val.null ≠ Val.str (BaseManager.tokenOf "missing".data) := by
  constructor
  · have h1 : BaseManager.fullmatchPlaceholder (BaseManager.tokenOf "missing".data)
        = some "missing".data := by decide
    simp only [BaseManager.format_input]
    rw [h1]
    rfl
  · exact fun h => Val.noConfusion h

/-- C5: when the Vector Store loaded a non-empty persisted index, `populate`
short-circuits — no source load, no split call, no document addition, no save
(empty effect log), and both the docstore and the on-disk state are left
exactly as loaded. Consequently a second `populate` against the unchanged
source set, after a first run that produced a non-empty docstore, performs no
ingestion and leaves the document set unchanged. -/
theorem populate_idempotent_reload
    (loadFn : List Char → List KnowledgeBase.Doc)
    (split : List Char → Option KnowledgeBase.Analysis)
    (sources : List (List Char)) :
    (∀ d, d ≠ [] →
      KnowledgeBase.populate loadFn split sources (some d)
        = ⟨some d, some d, []⟩)
    ∧ (∀ c, (KnowledgeBase.populate loadFn split sources none).docstore = some c →
        c ≠ [] →
        (KnowledgeBase.populate loadFn split sources none).disk = some c ∧
        KnowledgeBase.populate loadFn split sources
            (KnowledgeBase.populate loadFn split sources none).disk
          = ⟨some c, some c, []⟩) := by
  have hpop : ∀ d, KnowledgeBase.populate loadFn split sources (some d)
      = if 0 < d.length then ⟨some d, some d, []⟩
        else KnowledgeBase.ingestRun loadFn split sources (some d) (some d) := by
    intro d
    rfl
  have hpart1 : ∀ d, d ≠ [] →
      KnowledgeBase.populate loadFn split sources (some d) = ⟨some d, some d, []⟩ := by
    intro d hd
    rw [hpop d, if_pos (List.length_pos.mpr hd)]
  refine ⟨hpart1, ?_⟩
  intro c hds hc
  have h0 : KnowledgeBase.populate loadFn split sources none
      = KnowledgeBase.ingestRun loadFn split sources none none := rfl
  rw [h0] at hds ⊢
  by_cases hsrc : sources = []
  · rw [KnowledgeBase.ingestRun, if_pos hsrc] at hds
    exact absurd hds (by simp)
  · by_cases hch : KnowledgeBase.ingestChunks loadFn split sources = []
    · rw [KnowledgeBase.ingestRun, if_neg hsrc] at hds
      simp only [hch, if_pos rfl] at hds
      exact absurd hds (by simp)
    · have h1 : KnowledgeBase.ingestRun loadFn split sources none none
          = ⟨some (KnowledgeBase.ingestChunks loadFn split sources),
             some (KnowledgeBase.ingestChunks loadFn split sources),
             KnowledgeBase.ingestEffects loadFn sources ++
               [KnowledgeBase.Effect.addDocs
                 (KnowledgeBase.ingestChunks loadFn split sources).length,
                KnowledgeBase.Effect.saveIndex]⟩ := by
        rw [KnowledgeBase.ingestRun, if_neg hsrc]
        simp [hch]
      rw [h1] at hds ⊢
      simp only at hds
      have hceq : KnowledgeBase.ingestChunks loadFn split sources = c :=
        Option.some.injEq .. ▸ hds
      rw [hceq]
      exact ⟨rfl, hpart1 c hc⟩

/-- Witness for C5: with a one-document source whose split fails, the first
run ingests one whole-file chunk; the second run, fed the first run's disk
state, short-circuits and returns the same single-chunk docstore. -/
theorem populate_idempotent_reload_witness :
    KnowledgeBase.populate (fun _ => [⟨"f.dart".data, "content".data⟩])
        (fun _ => none) ["src".data]
        (some [("content".data, "f.dart".data)])
      = ⟨some [("content".data, "f.dart".data)],
         some [("content".data, "f.dart".data)], []⟩
    ∧ ((KnowledgeBase.populate (fun _ => [⟨"f.dart".data, "content".data⟩])
          (fun _ => none) ["src".data] none).disk
        = some [("content".data, "f.dart".data)]
      ∧ KnowledgeBase.populate (fun _ => [⟨"f.dart".data, "content".data⟩])
          (fun _ => none) ["src".data]
          (KnowledgeBase.populate (fun _ => [⟨"f.dart".data, "content".data⟩])
            (fun _ => none) ["src".data] none).disk
        = ⟨some [("content".data, "f.dart".data)],
           some [("content".data, "f.dart".data)], []⟩) :=
  ⟨(populate_idempotent_reload (fun _ => [⟨"f.dart".data, "content".data⟩])
      (fun _ => none) ["src".data]).1
    [("content".data, "f.dart".data)] (by decide),
   (populate_idempotent_reload (fun _ => [⟨"f.dart".data, "content".data⟩])
      (fun _ => none) ["src".data]).2
    [("content".data, "f.dart".data)] rfl (by decide)⟩

/-- C7 (amended): for a file whose structured split fails, `_populate` stores
exactly one whole-file Document Record — content the whole file content, path
the original file path — provided the file's content and path are both
non-empty; when the content (or path) is the empty string, the truthiness
guard `doc.get('content') and doc.get('path')` skips the fallback and ZERO
records are stored for that file. Unit-level records are never produced on
the failure path. -/
theorem splitter_fallback_whole_file
    (split : List Char → Option KnowledgeBase.Analysis) (d : KnowledgeBase.Doc)
    (hfail : split d.content = none) :
    (d.content ≠ [] → d.path ≠ [] →
      KnowledgeBase.chunksForDoc split d = [(d.content, d.path)])
    ∧ ((d.content = [] ∨ d.path = []) →
      KnowledgeBase.chunksForDoc split d = []) := by
  have h0 : KnowledgeBase.chunksForDoc split d
      = if d.content ≠ [] ∧ d.path ≠ [] then [(d.content, d.path)] else [] := by
    unfold KnowledgeBase.chunksForDoc
    rw [hfail]
  constructor
  · intro hco hp
    rw [h0, if_pos ⟨hco, hp⟩]
  · intro hor
    rw [h0, if_neg ?_]
    intro hand
    cases hor with
    | inl h => exact hand.1 h
    | inr h => exact hand.2 h

/-- Witness for the amended C7: a non-empty file whose split fails becomes
exactly the single whole-file record. -/
theorem splitter_fallback_whole_file_witness :
    KnowledgeBase.chunksForDoc (fun _ => none) ⟨"a.dart".data, "class A".data⟩
      = [("class A".data, "a.dart".data)] :=
  (splitter_fallback_whole_file (fun _ => none) ⟨"a.dart".data, "class A".data⟩
    rfl).1 (by decide) (by decide)

/-- Counterexample to C7 as stated: an empty file (readable, content `""`)
whose structured split fails yields ZERO Document Records — the claim's
"never zero records" is false, because the fallback is guarded by Python
truthiness of `doc['content']`. -/
theorem splitter_fallback_empty_file_counterexample :
    KnowledgeBase.chunksForDoc (fun _ => none) ⟨"a.dart".data, []⟩ = []
    ∧ (KnowledgeBase.chunksForDoc (fun _ => none) ⟨"a.dart".data, []⟩).length ≠ 1 := by
  constructor
  · rfl
  · intro h
    simp [KnowledgeBase.chunksForDoc] at h

/-- C8 (the code evaluated at a failing input): for a 200-character file, the
Splitter issues exactly one Gateway request (no retry) whose system message
is the fixed prompt and whose schema flag is set, but whose user content is
`file_content[:120].replace('\n', ' ') + '...'` — the 120-character log
preview, NOT the entire file content — and a parse/validation failure yields
`None`. -/
theorem splitter_sends_truncated_preview :
    (KnowledgeBase.split_str_into_logical_chunks (fun _ => some "bad json".data)
        (fun _ => none) (List.replicate 200 'a')).2
      = [⟨KnowledgeBase.PROMPT_TO_READ_DART_FILE,
          List.replicate 120 'a' ++ "...".data, true⟩]
    ∧ List.replicate 120 'a' ++ "...".data ≠ List.replicate 200 'a'
    ∧ (KnowledgeBase.split_str_into_logical_chunks (fun _ => some "bad json".data)
        (fun _ => none) (List.replicate 200 'a')).1 = none := by
  refine ⟨?_, by decide, rfl⟩
  show [(⟨KnowledgeBase.PROMPT_TO_READ_DART_FILE,
      KnowledgeBase.sentUserContent (List.replicate 200 'a'), true⟩ :
        KnowledgeBase.SplitRequest)] = _
  have h1 : KnowledgeBase.sentUserContent (List.replicate 200 'a')
      = List.replicate 120 'a' ++ "...".data := by decide
  rw [h1]


/-- C6: `StoreBase.search` never raises (the model is a total function);
it returns the empty sequence when the query embedding fails (`None` — a
falsy empty embedding also yields `[]`) or the store is empty; and otherwise
it returns exactly `min k totalIndexed` documents, namely the documents at
the index positions produced by the L2 nearest-neighbour search, whose
distances to the query are in ascending order. -/
theorem storeSearch_clamped_sorted
    (emb : List Char → Option (List Int)) (index : List (List Int))
    (docs : List KnowledgeBase.Doc) (query : List Char) (k : Nat) :
    (emb query = none → KnowledgeBase.storeSearch emb index docs query k = [])
    ∧ (index = [] → KnowledgeBase.storeSearch emb index docs query k = [])
    ∧ (∀ e, emb query = some e → e ≠ [] → index ≠ [] →
        (KnowledgeBase.storeSearch emb index docs query k).length
            = min k index.length
        ∧ KnowledgeBase.storeSearch emb index docs query k
            = (KnowledgeBase.faissSearch index e (min k index.length)).map
                (fun i => docs.getD i ⟨[], []⟩)
        ∧ ((KnowledgeBase.faissSearch index e (min k index.length)).map
             (fun i => KnowledgeBase.sqDist e (index.getD i []))).Pairwise (· ≤ ·)) := by
  refine ⟨?_, ?_, ?_⟩
  · intro h
    simp [KnowledgeBase.storeSearch, h]
  · intro h
    subst h
    cases he : emb query with
    | none => simp [KnowledgeBase.storeSearch, he]
    | some e => simp [KnowledgeBase.storeSearch, he]
  · intro e he hne hidx
    have hbr : KnowledgeBase.storeSearch emb index docs query k
        = (KnowledgeBase.faissSearch index e (min k index.length)).map
            (fun i => docs.getD i ⟨[], []⟩) := by
      unfold KnowledgeBase.storeSearch
      rw [he]
      exact if_pos ⟨hne, List.length_pos.mpr hidx⟩
    have hsorted : (List.mergeSort (List.range index.length)
          (fun i j => decide (KnowledgeBase.sqDist e (index.getD i [])
            ≤ KnowledgeBase.sqDist e (index.getD j [])))).Pairwise
          (fun i j => decide (KnowledgeBase.sqDist e (index.getD i [])
            ≤ KnowledgeBase.sqDist e (index.getD j []))) :=
      List.sorted_mergeSort
        (by
          intro a b c h1 h2
          simp only [decide_eq_true_eq] at h1 h2 ⊢
          omega)
        (by
          intro a b
          simp only [Bool.or_eq_true, decide_eq_true_eq]
          omega)
        (List.range index.length)
    refine ⟨?_, hbr, ?_⟩
    · rw [hbr, List.length_map]
      unfold KnowledgeBase.faissSearch
      rw [List.length_take, List.length_mergeSort, List.length_range]
      omega
    · unfold KnowledgeBase.faissSearch
      rw [List.pairwise_map]
      have htake := List.Pairwise.sublist
        (List.take_sublist (min k index.length) _) hsorted
      exact htake.imp (by
        intro a b hab
        simpa using hab)

/-- Witness for C6: a three-vector store queried with `k = 5` returns
`min 5 3 = 3` documents in ascending-distance order. -/
theorem storeSearch_clamped_sorted_witness :
    (KnowledgeBase.storeSearch (fun _ => some [0]) [[5], [1], [3]]
        [⟨"p1".data, "c1".data⟩, ⟨"p2".data, "c2".data⟩, ⟨"p3".data, "c3".data⟩]
        "q".data 5).length
      = min 5 ([[5], [1], [3]] : List (List Int)).length
    ∧ KnowledgeBase.storeSearch (fun _ => some [0]) [[5], [1], [3]]
        [⟨"p1".data, "c1".data⟩, ⟨"p2".data, "c2".data⟩, ⟨"p3".data, "c3".data⟩]
        "q".data 5
      = (KnowledgeBase.faissSearch [[5], [1], [3]] [0]
          (min 5 ([[5], [1], [3]] : List (List Int)).length)).map
          (fun i =>
            ([⟨"p1".data, "c1".data⟩, ⟨"p2".data, "c2".data⟩,
              ⟨"p3".data, "c3".data⟩] : List KnowledgeBase.Doc).getD i ⟨[], []⟩)
    ∧ ((KnowledgeBase.faissSearch [[5], [1], [3]] [0]
          (min 5 ([[5], [1], [3]] : List (List Int)).length)).map
        (fun i => KnowledgeBase.sqDist [0]
          (([[5], [1], [3]] : List (List Int)).getD i []))).Pairwise (· ≤ ·) :=
  (storeSearch_clamped_sorted (fun _ => some [0]) [[5], [1], [3]]
    [⟨"p1".data, "c1".data⟩, ⟨"p2".data, "c2".data⟩, ⟨"p3".data, "c3".data⟩]
    "q".data 5).2.2 [0] rfl (by decide) (by decide)

/-- C10 (the code evaluated at failing inputs): `read_file` (load.py:28-35)
pins only `path` as a default argument while its `aiofiles.open` call uses
the late-bound closure variable `full_path`; the coroutine bodies first run
inside `asyncio.gather` after the walk loop ends, so every task opens the
LAST matched file. First conjunct: with an unreadable `a.dart` followed by a
readable `b.dart` holding `Y`, the unreadable file is NOT dropped — it yields
the record `(r/a.dart, Y)` carrying the other file\x27s content. Second
conjunct: with a readable `a.dart` followed by an unreadable `b.dart`, every
record is dropped, the readable file included. Both contradict the claim\x27s
"a file that fails to read is dropped from the result" and its per-file
content correspondence. -/
theorem load_from_local_path_late_binding_bug :
    KnowledgeBase.load_from_local_path [".dart".data] "r".data
      [KnowledgeBase.FSTree.file "a.dart".data none,
       KnowledgeBase.FSTree.file "b.dart".data (some "Y".data)]
      = [⟨"r/a.dart".data, "Y".data⟩, ⟨"r/b.dart".data, "Y".data⟩]
    ∧ KnowledgeBase.load_from_local_path [".dart".data] "r".data
      [KnowledgeBase.FSTree.file "a.dart".data (some "X".data),
       KnowledgeBase.FSTree.file "b.dart".data none]
      = [] :=
  ⟨rfl, rfl⟩
